import Mathlib

/-!
Verification of the data-cleaning and aggregation logic of BiomedD.py
(Graduate Analytics Dashboard).  The pandas operations of the script are
shallowly embedded: strings are Lean strings, a cell of the table is an
optional string (missing values are modelled as `none`), and a table is an
association list from column names to columns.  Pandas `str.split` with
`expand=True` is modelled character by character, including its padding of
rows that have fewer segments than the widest row and the width-mismatch
failure of the multi-column assignment.
-/

namespace BiomedD

/-- Characterwise split of a list of characters at every occurrence of the
separator.  This models the Python `str.split` used by
`df[...].str.split(..., expand=True)` in BiomedD.py: the result always has
`count sep + 1` segments and no segment contains the separator. -/
def splitChar (sep : Char) : List Char → List (List Char)
  | [] => [[]]
  | c :: cs =>
    if c = sep then [] :: splitChar sep cs
    else (c :: (splitChar sep cs).headI) :: (splitChar sep cs).tail

/-- Join a list of segments with the separator, the inverse of `splitChar`. -/
def joinChar (sep : Char) : List (List Char) → List Char
  | [] => []
  | [p] => p
  | p :: q :: ps => p ++ sep :: joinChar sep (q :: ps)

/-- Comma segments of one Address value (line 56 of BiomedD.py). -/
def segs (a : List Char) : List (List Char) := splitChar ',' a

/-- The three columns pandas extracts for one row when the expanded split
has width three: segments beyond the available ones are missing values. -/
def addressRow (a : List Char) :
    Option (List Char) × Option (List Char) × Option (List Char) :=
  ((segs a)[0]?, (segs a)[1]?, (segs a)[2]?)

/-- Width of the expanded split frame: the maximum segment count over the
rows of the Address column. -/
def maxSegs (rows : List (List Char)) : Nat :=
  rows.foldr (fun a m => max (segs a).length m) 0

/-- The batch assignment of line 56,
`df[[Zone, District, City]] = df[Address].str.split(",", expand=True)`:
it succeeds exactly when the expanded frame has width three, in which case
every row is padded to three fields; otherwise the whole assignment fails. -/
def splitAddressBatch (rows : List (List Char)) :
    Except Unit (List (Option (List Char) × Option (List Char) × Option (List Char))) :=
  if maxSegs rows = 3 then Except.ok (rows.map addressRow) else Except.error ()

/-- Whitespace as matched by the Python regular expression class used in
`remove_spaces` (ASCII whitespace plus the Unicode space characters). -/
def isPyWs (c : Char) : Bool :=
  c.val == 0x09 || c.val == 0x0a || c.val == 0x0b || c.val == 0x0c ||
  c.val == 0x0d || c.val == 0x20 ||
  (decide (0x1c ≤ c.val) && decide (c.val ≤ 0x1f)) ||
  c.val == 0x85 || c.val == 0xa0 || c.val == 0x1680 ||
  (decide (0x2000 ≤ c.val) && decide (c.val ≤ 0x200a)) ||
  c.val == 0x2028 || c.val == 0x2029 || c.val == 0x202f ||
  c.val == 0x205f || c.val == 0x3000

/-- Lines 59-60 of BiomedD.py: `remove_spaces` deletes every whitespace
character of its argument (the regular expression substitutes every
whitespace run by the empty string). -/
def remove_spaces (s : String) : String :=
  String.mk (s.data.filter (fun c => !isPyWs c))

/-- Line 64 of BiomedD.py: the country code dictionary. -/
def replacements : List (String × String) :=
  [("NP", "Nepal"), ("IN", "India"), ("US", "United States")]

/-- Line 65 of BiomedD.py applied to one value: `Series.replace` with a
dictionary replaces a value on an exact match and keeps it otherwise. -/
def replaceCountry (s : String) : String :=
  (replacements.lookup s).getD s

/-- The canonical university name both variants are merged into. -/
def canonVelTech : String :=
  "Vel Tech Rangarajan Dr. Sagunthala R&D Institute of Science and Technology"

/-- Lines 68-71 of BiomedD.py: the university variant dictionary. -/
def add_replacements : List (String × String) :=
  [("Vel Tech Dr RR & SR Technical University", canonVelTech),
   ("Vel Tech Rangarajan Dr.Sagunthala R&D Institute of Science and Technology",
    canonVelTech)]

/-- First segment of the split of a string at the separator, the text
strictly before the first occurrence (the whole string when absent). -/
def firstSegment (sep : Char) (s : String) : String :=
  String.mk ((splitChar sep s.data).headI)

/-- Line 66 of BiomedD.py applied to one value:
`df[University].str.split(",", expand=True)[0]` keeps the text before the
first comma. -/
def truncUniversity (s : String) : String := firstSegment ',' s

/-- Line 72 of BiomedD.py applied to one value:
`map(add_replacements).fillna(original)` is an exact lookup with an
identity fallback. -/
def uniReplace (s : String) : String :=
  (add_replacements.lookup s).getD s

/-- The complete per-value university normalization of lines 66-72. -/
def normUniversity (s : String) : String := uniReplace (truncUniversity s)

/-- Line 85 of BiomedD.py:
`(df[Gender] == "Male").sum() / len(df) * 100 if len(df) > 0 else 0`.
The Python float arithmetic is modelled with rational numbers. -/
def male_pct (g : List String) : Rat :=
  if 0 < g.length then
    ((g.countP (fun x => x == "Male") : Rat) / (g.length : Rat)) * 100
  else 0

/-- The distinct values of a list in order of first appearance (the row
order a pandas hash-based grouping preserves before sorting). -/
def uniqueFirst {α : Type} [DecidableEq α] : List α → List α
  | [] => []
  | x :: xs => x :: (uniqueFirst xs).filter (fun y => decide (y ≠ x))

/-- Frequency pairs of a list, one pair per distinct value, in order of
first appearance. -/
def firstCounts {α : Type} [DecidableEq α] (l : List α) : List (α × Nat) :=
  (uniqueFirst l).map (fun x => (x, l.count x))

/-- Stable insertion into a list sorted by the Boolean relation. -/
def insertBy {α : Type} (le : α → α → Bool) (p : α) : List α → List α
  | [] => [p]
  | q :: qs => if le p q then p :: q :: qs else q :: insertBy le p qs

/-- Stable insertion sort by the Boolean relation. -/
def sortBy {α : Type} (le : α → α → Bool) : List α → List α
  | [] => []
  | p :: ps => insertBy le p (sortBy le ps)

/-- `Series.value_counts()` as used throughout BiomedD.py (lines 103, 117,
162, 176, 193, 212): frequency table sorted by descending count. -/
def value_counts {α : Type} [DecidableEq α] (l : List α) : List (α × Nat) :=
  sortBy (fun a b => decide (b.2 ≤ a.2)) (firstCounts l)

/-- `.sort_index()` on a frequency table: ascending order of the keys. -/
def sort_index {α : Type} [LinearOrder α] (t : List (α × Nat)) : List (α × Nat) :=
  sortBy (fun a b => decide (a.1 ≤ b.1)) t

/-- Line 103 of BiomedD.py: the year trend counts,
`df[Passout Year].value_counts().sort_index()`. -/
def yearCounts (l : List Int) : List (Int × Nat) := sort_index (value_counts l)

/-- Lines 176, 193 and 212 of BiomedD.py: `value_counts().head(n)`. -/
def topN {α : Type} [DecidableEq α] (n : Nat) (l : List α) : List (α × Nat) :=
  (value_counts l).take n

/-- A table cell: a missing value is `none` (pandas NaN or the padding of a
short split). -/
abbrev Cell := Option String

/-- A table: an association list from column names to columns, in column
order, as a pandas frame with its columns. -/
abbrev Table := List (String × List Cell)

/-- Column access `df[name]`. -/
def getCol (t : Table) (name : String) : Option (List Cell) :=
  List.lookup name t

/-- Column assignment `df[name] = col`: overwrite in place when the column
exists, otherwise append it as the last column. -/
def setCol (t : Table) (name : String) (col : List Cell) : Table :=
  if t.any (fun p => p.1 == name) then
    t.map (fun p => if p.1 == name then (name, col) else p)
  else t ++ [(name, col)]

/-- `df.drop(columns=[name])`. -/
def dropCol (t : Table) (name : String) : Table :=
  t.filter (fun p => !(p.1 == name))

/-- Segments of one cell under `str.split`: a missing value stays one
missing value. -/
def cellSegs (sep : Char) : Cell → List Cell
  | none => [none]
  | some s => (splitChar sep s.data).map (fun p => some (String.mk p))

/-- Width of the frame produced by `str.split(sep, expand=True)` on a
column. -/
def colWidth (sep : Char) (col : List Cell) : Nat :=
  col.foldr (fun c m => max (cellSegs sep c).length m) 0

/-- `str.split(sep, expand=True)` of a column, assigned to `n` target
columns: fails when the expanded width differs from `n`, otherwise yields
the `n` columns with short rows padded by missing values. -/
def expandCol (sep : Char) (n : Nat) (col : List Cell) :
    Except Unit (List (List Cell)) :=
  if colWidth sep col = n then
    Except.ok ((List.range n).map (fun j => col.map (fun c => ((cellSegs sep c)[j]?).join)))
  else Except.error ()

/-- The Python `str(...)` of a cell, as fed to `remove_spaces`: a missing
value stringifies to a placeholder without whitespace. -/
def strOfCell : Cell → String
  | none => "nan"
  | some s => s

/-- The failures of the cleaning pass: a key error on a missing column, or
the width mismatch of a multi-column split assignment. -/
inductive CleanErr where
  | missingColumn (name : String)
  | widthMismatch
deriving DecidableEq

/-- Line 55 of BiomedD.py:
`df[[University, Country]] = df[University/Country].str.split("/", expand=True)`.
A raised error carries the table state at the moment it is raised. -/
def splitUCStep (t : Table) : Except (CleanErr × Table) Table :=
  match getCol t "University/Country" with
  | none => Except.error (CleanErr.missingColumn "University/Country", t)
  | some uc =>
    match expandCol '/' 2 uc with
    | Except.error _ => Except.error (CleanErr.widthMismatch, t)
    | Except.ok cols =>
      Except.ok (setCol (setCol t "University" cols.headI) "Country" cols.tail.headI)

/-- Lines 56-57 of BiomedD.py: the Address split into Zone, District and
City, then the drop of the two composite source columns. -/
def splitAddrStep (t : Table) : Except (CleanErr × Table) Table :=
  match getCol t "Address" with
  | none => Except.error (CleanErr.missingColumn "Address", t)
  | some addr =>
    match expandCol ',' 3 addr with
    | Except.error _ => Except.error (CleanErr.widthMismatch, t)
    | Except.ok acols =>
      Except.ok (dropCol (dropCol
        (setCol (setCol (setCol t "Zone" acols.headI)
          "District" acols.tail.headI) "City" acols.tail.tail.headI)
        "Address") "University/Country")

/-- Line 62 of BiomedD.py: `df[District] = df[District].apply(remove_spaces)`. -/
def districtStep (t : Table) : Except (CleanErr × Table) Table :=
  match getCol t "District" with
  | none => Except.error (CleanErr.missingColumn "District", t)
  | some dcol =>
    Except.ok (setCol t "District" (dcol.map (fun c => some (remove_spaces (strOfCell c)))))

/-- Line 65 of BiomedD.py: `df[Country] = df[Country].replace(replacements)`. -/
def countryStep (t : Table) : Except (CleanErr × Table) Table :=
  match getCol t "Country" with
  | none => Except.error (CleanErr.missingColumn "Country", t)
  | some ccol =>
    Except.ok (setCol t "Country" (ccol.map (Option.map replaceCountry)))

/-- Line 66 of BiomedD.py: truncate University to the text before the
first comma. -/
def truncStep (t : Table) : Except (CleanErr × Table) Table :=
  match getCol t "University" with
  | none => Except.error (CleanErr.missingColumn "University", t)
  | some ucol =>
    Except.ok (setCol t "University" (ucol.map (Option.map truncUniversity)))

/-- Line 72 of BiomedD.py: `map(add_replacements).fillna(df[University])`. -/
def uniMapStep (t : Table) : Except (CleanErr × Table) Table :=
  match getCol t "University" with
  | none => Except.error (CleanErr.missingColumn "University", t)
  | some ucol =>
    Except.ok (setCol t "University" (ucol.map (Option.map uniReplace)))

/-- The complete cleaning pass of lines 55-72 of BiomedD.py, stage by
stage in source order. -/
def clean (t : Table) : Except (CleanErr × Table) Table :=
  splitUCStep t >>= splitAddrStep >>= districtStep >>= countryStep
    >>= truncStep >>= uniMapStep

/-! Basic facts about the characterwise split. -/

lemma splitChar_ne_nil (sep : Char) (l : List Char) : splitChar sep l ≠ [] := by
  cases l with
  | nil => simp [splitChar]
  | cons c cs =>
    simp only [splitChar]
    by_cases h : c = sep <;> simp [h]

lemma joinChar_head_cons (sep : Char) (x : Char) (r : List (List Char)) (h : r ≠ []) :
    joinChar sep ((x :: r.headI) :: r.tail) = x :: joinChar sep r := by
  cases r with
  | nil => exact absurd rfl h
  | cons p ps =>
    cases ps with
    | nil => simp [joinChar, List.headI]
    | cons q qs => simp [joinChar, List.headI]

theorem joinChar_splitChar (sep : Char) (l : List Char) :
    joinChar sep (splitChar sep l) = l := by
  induction l with
  | nil => rfl
  | cons c cs ih =>
    by_cases h : c = sep
    · rw [h]
      simp only [splitChar, if_pos rfl]
      cases hr : splitChar sep cs with
      | nil => exact absurd hr (splitChar_ne_nil sep cs)
      | cons p ps =>
        have ih2 := ih
        rw [hr] at ih2
        simp [joinChar, ih2]
    · simp only [splitChar, if_neg h]
      rw [joinChar_head_cons sep c _ (splitChar_ne_nil sep cs), ih]

lemma length_splitChar (sep : Char) (l : List Char) :
    (splitChar sep l).length = l.count sep + 1 := by
  induction l with
  | nil => simp [splitChar]
  | cons c cs ih =>
    by_cases h : c = sep
    · rw [h]
      simp [splitChar, List.count_cons_self, ih]
    · simp only [splitChar, if_neg h]
      have hne := splitChar_ne_nil sep cs
      cases hr : splitChar sep cs with
      | nil => exact absurd hr hne
      | cons p ps =>
        rw [hr] at ih
        simp only [List.headI, List.tail, List.length_cons] at ih ⊢
        rw [List.count_cons_of_ne (fun hh => h hh.symm)]
        omega

lemma not_mem_headI_splitChar (sep : Char) (l : List Char) :
    sep ∉ (splitChar sep l).headI := by
  induction l with
  | nil => simp [splitChar]
  | cons c cs ih =>
    by_cases h : c = sep
    · rw [h]; simp [splitChar]
    · simp only [splitChar, if_neg h, List.headI]
      intro hmem
      rcases List.mem_cons.mp hmem with h1 | h1
      · exact h h1.symm
      · exact ih h1

lemma splitChar_of_not_mem (sep : Char) (l : List Char) (h : sep ∉ l) :
    splitChar sep l = [l] := by
  induction l with
  | nil => rfl
  | cons c cs ih =>
    have hc : ¬ c = sep := by
      intro hh; exact h (by rw [hh]; exact List.mem_cons_self _ _)
    have hcs : sep ∉ cs := fun hm => h (List.mem_cons_of_mem _ hm)
    simp [splitChar, hc, ih hcs, List.headI]

lemma splitChar_append_sep (sep : Char) (a b : List Char) (h : sep ∉ a) :
    splitChar sep (a ++ sep :: b) = a :: splitChar sep b := by
  induction a with
  | nil => simp [splitChar]
  | cons c a ih =>
    have hc : ¬ c = sep := by
      intro hh; exact h (by rw [hh]; exact List.mem_cons_self _ _)
    have ha : sep ∉ a := fun hm => h (List.mem_cons_of_mem _ hm)
    simp [splitChar, hc, ih ha, List.headI]

/-- Claim C6: when a University/Country value contains exactly one slash,
the split of line 55 yields exactly the University part and the Country
part, and rejoining them with the slash reconstructs the original value. -/
theorem university_country_split_roundtrip (l : List Char) (h : l.count '/' = 1) :
    (splitChar '/' l).length = 2 ∧
    (splitChar '/' l).headI ++ '/' :: (splitChar '/' l).tail.headI = l := by
  have hlen : (splitChar '/' l).length = 2 := by rw [length_splitChar, h]
  refine ⟨hlen, ?_⟩
  obtain ⟨u, c, huc⟩ := List.length_eq_two.mp hlen
  have hjoin := joinChar_splitChar '/' l
  rw [huc] at hjoin ⊢
  simpa [joinChar, List.headI] using hjoin

/-- Witness for C6 at the value MIT/US of the specification example. -/
theorem university_country_split_roundtrip_witness :
    (splitChar '/' ("MIT/US".data)).length = 2 ∧
    (splitChar '/' ("MIT/US".data)).headI ++ '/' ::
      (splitChar '/' ("MIT/US".data)).tail.headI = "MIT/US".data :=
  university_country_split_roundtrip _ (by decide)

/-! The Address batch split of line 56. -/

lemma maxSegs_nil : maxSegs [] = 0 := rfl

lemma maxSegs_cons (a : List Char) (rs : List (List Char)) :
    maxSegs (a :: rs) = max (segs a).length (maxSegs rs) := rfl

lemma le_maxSegs (rows : List (List Char)) (r : List Char) (h : r ∈ rows) :
    (segs r).length ≤ maxSegs rows := by
  induction rows with
  | nil => simp at h
  | cons a rs ih =>
    rw [maxSegs_cons]
    rcases List.mem_cons.mp h with h1 | h1
    · rw [h1]; exact le_max_left _ _
    · exact le_trans (ih h1) (le_max_right _ _)

lemma maxSegs_le (rows : List (List Char)) (n : Nat)
    (h : ∀ r ∈ rows, (segs r).length ≤ n) : maxSegs rows ≤ n := by
  induction rows with
  | nil => exact Nat.zero_le n
  | cons a rs ih =>
    rw [maxSegs_cons]
    exact max_le (h a (List.mem_cons_self _ _))
      (ih (fun r hr => h r (List.mem_cons_of_mem _ hr)))

lemma exists_eq_maxSegs (rows : List (List Char)) (h : maxSegs rows = 3) :
    ∃ r ∈ rows, (segs r).length = 3 := by
  induction rows with
  | nil => simp [maxSegs_nil] at h
  | cons a rs ih =>
    rw [maxSegs_cons] at h
    rcases max_choice (segs a).length (maxSegs rs) with hm | hm
    · rw [hm] at h
      exact ⟨a, List.mem_cons_self _ _, h⟩
    · rw [hm] at h
      obtain ⟨r, hr, hlen⟩ := ih h
      exact ⟨r, List.mem_cons_of_mem _ hr, hlen⟩

lemma maxSegs_eq_three_iff (rows : List (List Char)) :
    maxSegs rows = 3 ↔
      (∀ r ∈ rows, (segs r).length ≤ 3) ∧ ∃ r ∈ rows, (segs r).length = 3 := by
  constructor
  · intro h
    exact ⟨fun r hr => h ▸ le_maxSegs rows r hr, exists_eq_maxSegs rows h⟩
  · rintro ⟨hall, r, hr, hlen⟩
    exact le_antisymm (maxSegs_le rows 3 hall) (hlen ▸ le_maxSegs rows r hr)

/-- Counterexample to claim C1: in a batch whose widest row has three
comma segments, a row whose Address has only two segments does not make
the operation fail; the batch is produced with the short row padded by a
missing value. -/
theorem address_split_padding_counterexample :
    (segs "x,y".data).length ≠ 3 ∧
    "x,y".data ∈ ["a,b,c".data, "x,y".data] ∧
    splitAddressBatch ["a,b,c".data, "x,y".data] =
      Except.ok [(some "a".data, some "b".data, some "c".data),
                 (some "x".data, some "y".data, none)] :=
  ⟨by decide, by decide, rfl⟩

/-- Claim C1 amended: the Address split of line 56 fails for the whole
batch exactly when the width of the expanded split, the maximum segment
count over the rows, differs from three: that is, unless every row has at
most three comma segments and some row has exactly three.  Rows with fewer
segments than three are then padded with missing values, not rejected. -/
theorem address_split_failure_condition (rows : List (List Char)) :
    splitAddressBatch rows = Except.error () ↔
      ¬ ((∀ r ∈ rows, (segs r).length ≤ 3) ∧ ∃ r ∈ rows, (segs r).length = 3) := by
  rw [← maxSegs_eq_three_iff]
  unfold splitAddressBatch
  by_cases h : maxSegs rows = 3 <;> simp [h]

/-- Witness for the amended claim C1: the empty batch has width zero and
the assignment fails. -/
theorem address_split_failure_condition_witness :
    splitAddressBatch [] = Except.error () :=
  (address_split_failure_condition []).mpr (by simp)

/-! Name normalization. -/

lemma remove_spaces_all_not_ws (s : String) :
    (remove_spaces s).data.all (fun c => !isPyWs c) = true := by
  apply List.all_eq_true.mpr
  intro c hc
  have hc2 : c ∈ s.data.filter (fun c => !isPyWs c) := hc
  exact (List.mem_filter.mp hc2).2

/-- Claim C5: the Country normalization of line 65 maps the codes NP, IN
and US to the full names, keeps every other value unchanged, and is
idempotent. -/
theorem country_normalization_idempotent :
    (replaceCountry "NP" = "Nepal" ∧ replaceCountry "IN" = "India" ∧
      replaceCountry "US" = "United States") ∧
    (∀ s : String, s ≠ "NP" → s ≠ "IN" → s ≠ "US" → replaceCountry s = s) ∧
    (∀ s : String, replaceCountry (replaceCountry s) = replaceCountry s) := by
  have hpass : ∀ s : String, s ≠ "NP" → s ≠ "IN" → s ≠ "US" → replaceCountry s = s := by
    intro s h1 h2 h3
    have b1 : (s == "NP") = false := beq_eq_false_iff_ne.mpr h1
    have b2 : (s == "IN") = false := beq_eq_false_iff_ne.mpr h2
    have b3 : (s == "US") = false := beq_eq_false_iff_ne.mpr h3
    simp [replaceCountry, replacements, List.lookup, b1, b2, b3]
  refine ⟨⟨by decide, by decide, by decide⟩, hpass, ?_⟩
  intro s
  by_cases h1 : s = "NP"
  · rw [h1]; decide
  by_cases h2 : s = "IN"
  · rw [h2]; decide
  by_cases h3 : s = "US"
  · rw [h3]; decide
  rw [hpass s h1 h2 h3]
  exact hpass s h1 h2 h3

/-- Witness for C5: a value outside the dictionary passes through. -/
theorem country_normalization_idempotent_witness :
    replaceCountry "Nepal" = "Nepal" :=
  country_normalization_idempotent.2.1 "Nepal" (by decide) (by decide) (by decide)

/-- Claim C4: the University normalization of lines 66-72 first keeps the
text strictly before the first comma (the whole value without a comma),
then applies the exact-match variant dictionary, which sends both known
variants to the canonical name and leaves every value outside the
dictionary unchanged. -/
theorem university_normalization_spec :
    (∀ a b : List Char, ',' ∉ a →
      truncUniversity (String.mk (a ++ ',' :: b)) = String.mk a) ∧
    (∀ a : List Char, ',' ∉ a → truncUniversity (String.mk a) = String.mk a) ∧
    normUniversity "Vel Tech Dr RR & SR Technical University" =
      "Vel Tech Rangarajan Dr. Sagunthala R&D Institute of Science and Technology" ∧
    normUniversity "Vel Tech Rangarajan Dr.Sagunthala R&D Institute of Science and Technology" =
      "Vel Tech Rangarajan Dr. Sagunthala R&D Institute of Science and Technology" ∧
    (∀ s : String, add_replacements.lookup (truncUniversity s) = none →
      normUniversity s = truncUniversity s) := by
  refine ⟨?_, ?_, by decide, by decide, ?_⟩
  · intro a b h
    unfold truncUniversity firstSegment
    show String.mk ((splitChar ',' (a ++ ',' :: b)).headI) = String.mk a
    rw [splitChar_append_sep ',' a b h]
    rfl
  · intro a h
    unfold truncUniversity firstSegment
    show String.mk ((splitChar ',' a).headI) = String.mk a
    rw [splitChar_of_not_mem ',' a h]
    rfl
  · intro s h
    simp [normUniversity, uniReplace, h]

/-- Witness for C4: truncation before the first comma, and the identity
fallback of the dictionary lookup. -/
theorem university_normalization_spec_witness :
    truncUniversity (String.mk ("Tribhuvan University".data ++ ',' :: " Kirtipur".data)) =
      String.mk "Tribhuvan University".data ∧
    normUniversity "MIT" = truncUniversity "MIT" :=
  ⟨university_normalization_spec.1 _ _ (by decide),
   university_normalization_spec.2.2.2.2 "MIT" (by decide)⟩

lemma truncUniversity_idem (s : String) :
    truncUniversity (truncUniversity s) = truncUniversity s := by
  have h : ',' ∉ (splitChar ',' s.data).headI := not_mem_headI_splitChar ',' s.data
  unfold truncUniversity firstSegment
  show String.mk ((splitChar ','
      (String.mk ((splitChar ',' s.data).headI)).data).headI) = _
  rw [show (String.mk ((splitChar ',' s.data).headI)).data
      = (splitChar ',' s.data).headI from rfl]
  rw [splitChar_of_not_mem ',' _ h]
  rfl

/-- Claim C10: the complete University normalization (truncate before the
first comma, then the exact-match dictionary with identity fallback) is
idempotent. -/
theorem university_normalization_idempotent (s : String) :
    normUniversity (normUniversity s) = normUniversity s := by
  cases hl : add_replacements.lookup (truncUniversity s) with
  | none =>
    have h1 : normUniversity s = truncUniversity s := by
      simp [normUniversity, uniReplace, hl]
    rw [h1]
    simp [normUniversity, uniReplace, truncUniversity_idem s, hl]
  | some v =>
    have hv : v = canonVelTech := by
      simp only [add_replacements, List.lookup] at hl
      split at hl
      · exact (Option.some.injEq _ _ ▸ hl).symm
      · split at hl
        · exact (Option.some.injEq _ _ ▸ hl).symm
        · exact Option.noConfusion hl
    have h1 : normUniversity s = canonVelTech := by
      simp [normUniversity, uniReplace, hl, hv]
    rw [h1]
    decide

/-! Aggregation. -/

/-- Claim C7: the Male percentage metric of line 85 equals the count of
rows whose Gender is exactly Male, divided by the row count, times 100,
and is 0 on an empty table instead of a division by zero. -/
theorem male_pct_spec :
    male_pct [] = 0 ∧
    ∀ g : List String, g ≠ [] →
      male_pct g = ((g.countP (fun x => x == "Male") : Rat) / (g.length : Rat)) * 100 := by
  refine ⟨rfl, ?_⟩
  intro g hg
  have hpos : 0 < g.length := List.length_pos.mpr hg
  simp [male_pct, hpos]

/-- Witness for C7 on a two-row table. -/
theorem male_pct_spec_witness :
    male_pct ["Male", "Female"] =
      ((List.countP (fun x => x == "Male") ["Male", "Female"] : Rat) /
        ((["Male", "Female"] : List String).length : Rat)) * 100 :=
  male_pct_spec.2 ["Male", "Female"] (by decide)

lemma mem_insertBy {α : Type} (le : α → α → Bool) (p : α) :
    ∀ (l : List α) (x : α), x ∈ insertBy le p l ↔ x = p ∨ x ∈ l := by
  intro l
  induction l with
  | nil => intro x; simp [insertBy]
  | cons q qs ih =>
    intro x
    by_cases h : le p q
    · simp [insertBy, h]
    · simp [insertBy, h, ih]
      tauto

lemma pairwise_insertBy {α : Type} (le : α → α → Bool)
    (htot : ∀ a b, le a b = true ∨ le b a = true)
    (htrans : ∀ a b c, le a b = true → le b c = true → le a c = true)
    (p : α) :
    ∀ l : List α, l.Pairwise (fun a b => le a b = true) →
      (insertBy le p l).Pairwise (fun a b => le a b = true) := by
  intro l
  induction l with
  | nil => intro _; simp [insertBy]
  | cons q qs ih =>
    intro h
    rw [List.pairwise_cons] at h
    obtain ⟨hq, hqs⟩ := h
    by_cases hle : le p q = true
    · simp only [insertBy, if_pos hle]
      refine List.pairwise_cons.mpr ⟨?_, List.pairwise_cons.mpr ⟨hq, hqs⟩⟩
      intro x hx
      rcases List.mem_cons.mp hx with h1 | h1
      · rw [h1]; exact hle
      · exact htrans p q x hle (hq x h1)
    · have hle2 : le q p = true := (htot p q).resolve_left hle
      simp only [insertBy, if_neg hle]
      refine List.pairwise_cons.mpr ⟨?_, ih hqs⟩
      intro x hx
      rcases (mem_insertBy le p qs x).mp hx with h1 | h1
      · rw [h1]; exact hle2
      · exact hq x h1

lemma pairwise_sortBy {α : Type} (le : α → α → Bool)
    (htot : ∀ a b, le a b = true ∨ le b a = true)
    (htrans : ∀ a b c, le a b = true → le b c = true → le a c = true) :
    ∀ l : List α, (sortBy le l).Pairwise (fun a b => le a b = true) := by
  intro l
  induction l with
  | nil => simp [sortBy]
  | cons p ps ih => exact pairwise_insertBy le htot htrans p _ ih

lemma mem_sortBy {α : Type} (le : α → α → Bool) :
    ∀ (l : List α) (x : α), x ∈ sortBy le l ↔ x ∈ l := by
  intro l
  induction l with
  | nil => intro x; simp [sortBy]
  | cons p ps ih => intro x; simp [sortBy, mem_insertBy, ih]

lemma pairwise_value_counts {α : Type} [DecidableEq α] (l : List α) :
    (value_counts l).Pairwise (fun a b => b.2 ≤ a.2) := by
  have h := pairwise_sortBy (fun a b : α × Nat => decide (b.2 ≤ a.2))
    (fun a b => by
      rcases Nat.le_total b.2 a.2 with h1 | h1
      · exact Or.inl (decide_eq_true h1)
      · exact Or.inr (decide_eq_true h1))
    (fun a b c hab hbc =>
      decide_eq_true (le_trans (of_decide_eq_true hbc) (of_decide_eq_true hab)))
    (firstCounts l)
  exact h.imp (fun hab => of_decide_eq_true hab)

lemma pairwise_sort_index {α : Type} [LinearOrder α] (t : List (α × Nat)) :
    (sort_index t).Pairwise (fun a b => a.1 ≤ b.1) := by
  have h := pairwise_sortBy (fun a b : α × Nat => decide (a.1 ≤ b.1))
    (fun a b => by
      rcases le_total a.1 b.1 with h1 | h1
      · exact Or.inl (decide_eq_true h1)
      · exact Or.inr (decide_eq_true h1))
    (fun a b c hab hbc =>
      decide_eq_true (le_trans (of_decide_eq_true hab) (of_decide_eq_true hbc)))
    t
  exact h.imp (fun hab => of_decide_eq_true hab)

lemma mem_value_counts_count {α : Type} [DecidableEq α] (l : List α) (x : α) (c : Nat)
    (h : (x, c) ∈ value_counts l) : c = l.count x := by
  have h2 : (x, c) ∈ firstCounts l := (mem_sortBy _ _ _).mp h
  simp only [firstCounts, List.mem_map] at h2
  obtain ⟨a, _, ha⟩ := h2
  obtain ⟨ha1, ha2⟩ := Prod.mk.injEq .. ▸ ha
  rw [← ha2, ha1]

/-- Claim C8: every frequency table produced by `value_counts` is ordered
by descending frequency, while the year trend counts of line 103 are
ordered ascending by the year key; the Gender example of the
specification computes as stated. -/
theorem frequency_table_ordering :
    (∀ l : List String, (value_counts l).Pairwise (fun a b => b.2 ≤ a.2)) ∧
    (∀ l : List Int, (yearCounts l).Pairwise (fun a b => a.1 ≤ b.1)) ∧
    value_counts ["Male", "Male", "Female"] = [("Male", 2), ("Female", 1)] := by
  refine ⟨fun l => pairwise_value_counts l, fun l => pairwise_sort_index _, by decide⟩

/-- Claim C9: Top-N filtering keeps the N highest-frequency categories in
descending order: the kept part is sorted, every kept count dominates
every discarded count, every kept pair carries the exact frequency of its
category, and the Top-2 example of the specification computes as stated. -/
theorem top_n_filtering_spec :
    (∀ (n : Nat) (l : List String), (topN n l).Pairwise (fun a b => b.2 ≤ a.2)) ∧
    (∀ (n : Nat) (l : List String) (x y : String × Nat),
      x ∈ topN n l → y ∈ (value_counts l).drop n → y.2 ≤ x.2) ∧
    (∀ (n : Nat) (l : List String) (x : String) (c : Nat),
      (x, c) ∈ topN n l → c = l.count x) ∧
    topN 2 (List.replicate 5 "A" ++ List.replicate 3 "B" ++ List.replicate 9 "C") =
      [("C", 9), ("A", 5)] := by
  refine ⟨?_, ?_, ?_, by decide⟩
  · intro n l
    exact List.Pairwise.sublist (List.take_sublist n _) (pairwise_value_counts l)
  · intro n l x y hx hy
    have h := pairwise_value_counts l
    rw [← List.take_append_drop n (value_counts l)] at h
    exact (List.pairwise_append.mp h).2.2 x hx y hy
  · intro n l x c hx
    exact mem_value_counts_count l x c (List.take_subset n _ hx)

/-- Witness for C9: the second district of the Top-2 example dominates the
discarded district, and the top district carries its exact count. -/
theorem top_n_filtering_spec_witness :
    ((("B", 3) : String × Nat)).2 ≤ ((("C", 9) : String × Nat)).2 ∧
    9 = (List.replicate 5 "A" ++ List.replicate 3 "B" ++ List.replicate 9 "C").count "C" :=
  ⟨top_n_filtering_spec.2.1 2 (List.replicate 5 "A" ++ List.replicate 3 "B" ++ List.replicate 9 "C")
      ("C", 9) ("B", 3) (by decide) (by decide),
   top_n_filtering_spec.2.2.1 2 (List.replicate 5 "A" ++ List.replicate 3 "B" ++ List.replicate 9 "C")
      "C" 9 (by decide)⟩

/-! Tables and the cleaning pipeline. -/

lemma lookup_overwrite (name : String) (col : List Cell) :
    ∀ t : Table, t.any (fun p => p.1 == name) = true →
      List.lookup name (t.map (fun p => if p.1 == name then (name, col) else p)) = some col := by
  intro t
  induction t with
  | nil => intro h; simp at h
  | cons p ts ih =>
    intro h
    obtain ⟨k, v⟩ := p
    rw [List.map_cons]
    by_cases hp : (((k, v) : String × List Cell).1 == name) = true
    · rw [if_pos hp]
      exact List.lookup_cons_self
    · have hts : ts.any (fun p => p.1 == name) = true := by
        simpa [List.any_cons, hp] using h
      have hne : (name == k) = false := by
        refine beq_eq_false_iff_ne.mpr (fun hh => ?_)
        exact hp (beq_iff_eq.mpr hh.symm)
      rw [if_neg hp, List.lookup_cons, hne]
      exact ih hts

lemma lookup_map_ne (name name' : String) (col : List Cell)
    (hne : (name' == name) = false) :
    ∀ t : Table,
      List.lookup name' (t.map (fun p => if p.1 == name then (name, col) else p)) =
        List.lookup name' t := by
  intro t
  induction t with
  | nil => rfl
  | cons p ts ih =>
    obtain ⟨k, v⟩ := p
    rw [List.map_cons]
    by_cases hp : (((k, v) : String × List Cell).1 == name) = true
    · have hk : k = name := beq_iff_eq.mp hp
      rw [if_pos hp, List.lookup_cons, List.lookup_cons, hk, hne]
      exact ih
    · rw [if_neg hp, List.lookup_cons, List.lookup_cons]
      cases hq : name' == k
      · exact ih
      · rfl

lemma lookup_append_single (name : String) (col : List Cell) :
    ∀ t : Table, t.any (fun p => p.1 == name) = false →
      List.lookup name (t ++ [(name, col)]) = some col := by
  intro t
  induction t with
  | nil => intro _; exact List.lookup_cons_self
  | cons p ts ih =>
    intro h
    obtain ⟨k, v⟩ := p
    rw [List.any_cons] at h
    obtain ⟨hp, hts⟩ := Bool.or_eq_false_iff.mp h
    have hne : (name == k) = false := by
      refine beq_eq_false_iff_ne.mpr (fun hh => ?_)
      exact absurd (beq_iff_eq.mpr hh.symm) (by simp [hp] at *)
    rw [List.cons_append, List.lookup_cons, hne]
    exact ih hts

lemma lookup_append_ne (name name' : String) (col : List Cell)
    (hne : (name' == name) = false) :
    ∀ t : Table, List.lookup name' (t ++ [(name, col)]) = List.lookup name' t := by
  intro t
  induction t with
  | nil => rw [List.nil_append, List.lookup_cons, hne]
  | cons p ts ih =>
    obtain ⟨k, v⟩ := p
    rw [List.cons_append, List.lookup_cons, List.lookup_cons]
    cases hq : name' == k
    · exact ih
    · rfl

lemma getCol_setCol_self (t : Table) (name : String) (col : List Cell) :
    getCol (setCol t name col) name = some col := by
  unfold getCol setCol
  by_cases h : t.any (fun p => p.1 == name) = true
  · rw [if_pos h]
    exact lookup_overwrite name col t h
  · rw [if_neg h]
    exact lookup_append_single name col t (Bool.eq_false_iff.mpr h)

lemma getCol_setCol_ne (t : Table) (name name' : String) (col : List Cell)
    (hne : name' ≠ name) :
    getCol (setCol t name col) name' = getCol t name' := by
  have hb : (name' == name) = false := beq_eq_false_iff_ne.mpr hne
  unfold getCol setCol
  by_cases h : t.any (fun p => p.1 == name) = true
  · rw [if_pos h]
    exact lookup_map_ne name name' col hb t
  · rw [if_neg h]
    exact lookup_append_ne name name' col hb t

lemma except_ok_bind {ε α β : Type} (a : α) (f : α → Except ε β) :
    (Except.ok a >>= f : Except ε β) = f a := rfl

lemma except_error_bind {ε α β : Type} (e : ε) (f : α → Except ε β) :
    (Except.error e >>= f : Except ε β) = Except.error e := rfl

lemma except_bind_ok_elim {ε α β : Type} {x : Except ε α} {f : α → Except ε β} {v : β}
    (h : (x >>= f) = Except.ok v) : ∃ w, x = Except.ok w ∧ f w = Except.ok v := by
  cases x with
  | error e => rw [except_error_bind] at h; exact Except.noConfusion h
  | ok w => rw [except_ok_bind] at h; exact ⟨w, rfl, h⟩

lemma districtStep_ok (t t' : Table) (h : districtStep t = Except.ok t') :
    ∃ dcol, getCol t "District" = some dcol ∧
      t' = setCol t "District" (dcol.map (fun c => some (remove_spaces (strOfCell c)))) := by
  unfold districtStep at h
  split at h
  · exact Except.noConfusion h
  · rename_i dcol hd
    cases h
    exact ⟨dcol, hd, rfl⟩

lemma countryStep_ok (t t' : Table) (h : countryStep t = Except.ok t') :
    ∃ ccol, getCol t "Country" = some ccol ∧
      t' = setCol t "Country" (ccol.map (Option.map replaceCountry)) := by
  unfold countryStep at h
  split at h
  · exact Except.noConfusion h
  · rename_i ccol hc
    cases h
    exact ⟨ccol, hc, rfl⟩

lemma truncStep_ok (t t' : Table) (h : truncStep t = Except.ok t') :
    ∃ ucol, getCol t "University" = some ucol ∧
      t' = setCol t "University" (ucol.map (Option.map truncUniversity)) := by
  unfold truncStep at h
  split at h
  · exact Except.noConfusion h
  · rename_i ucol hu
    cases h
    exact ⟨ucol, hu, rfl⟩

lemma uniMapStep_ok (t t' : Table) (h : uniMapStep t = Except.ok t') :
    ∃ ucol, getCol t "University" = some ucol ∧
      t' = setCol t "University" (ucol.map (Option.map uniReplace)) := by
  unfold uniMapStep at h
  split at h
  · exact Except.noConfusion h
  · rename_i ucol hu
    cases h
    exact ⟨ucol, hu, rfl⟩

/-- Counterexample to claim C2: on a table that has the University/Country
column but no Address column, the cleaning pass does raise the missing
column error for Address, but only after the University/Country split has
already been applied: the table carried by the error has the two new
columns and differs from the input table. -/
theorem missing_column_abort_counterexample :
    getCol [("University/Country", [some "MIT/US"])] "Address" = none ∧
    clean [("University/Country", [some "MIT/US"])] =
      Except.error (CleanErr.missingColumn "Address",
        [("University/Country", [some "MIT/US"]),
         ("University", [some "MIT"]), ("Country", [some "US"])]) ∧
    ([("University/Country", [some "MIT/US"]),
      ("University", [some "MIT"]), ("Country", [some "US"])] : Table) ≠
      [("University/Country", [some "MIT/US"])] :=
  ⟨rfl, rfl, by decide⟩

/-- Claim C2 amended: a missing required column raises its missing column
error at the moment the column is first accessed, so the table is
unchanged only when the first accessed column, University/Country, is the
missing one; when Address is missing the error is raised with the
University/Country split already applied to the table. -/
theorem missing_column_abort_amended :
    (∀ t : Table, getCol t "University/Country" = none →
      clean t = Except.error (CleanErr.missingColumn "University/Country", t)) ∧
    (∀ (t : Table) (uc : List Cell) (cols : List (List Cell)),
      getCol t "University/Country" = some uc →
      expandCol '/' 2 uc = Except.ok cols →
      getCol (setCol (setCol t "University" cols.headI) "Country" cols.tail.headI)
        "Address" = none →
      clean t = Except.error (CleanErr.missingColumn "Address",
        setCol (setCol t "University" cols.headI) "Country" cols.tail.headI)) := by
  constructor
  · intro t h
    have h1 : splitUCStep t =
        Except.error (CleanErr.missingColumn "University/Country", t) := by
      unfold splitUCStep
      rw [h]
    unfold clean
    rw [h1]
    simp only [except_error_bind]
  · intro t uc cols h1 h2 h3
    have s1 : splitUCStep t = Except.ok
        (setCol (setCol t "University" cols.headI) "Country" cols.tail.headI) := by
      simp only [splitUCStep, h1, h2]
    have s2 : splitAddrStep
        (setCol (setCol t "University" cols.headI) "Country" cols.tail.headI) =
        Except.error (CleanErr.missingColumn "Address",
          setCol (setCol t "University" cols.headI) "Country" cols.tail.headI) := by
      unfold splitAddrStep
      rw [h3]
    unfold clean
    rw [s1, except_ok_bind, s2]
    simp only [except_error_bind]

/-- Witness for the amended claim C2: one table without the
University/Country column, one with it but without Address. -/
theorem missing_column_abort_amended_witness :
    clean [("Gender", [some "Male"])] =
      Except.error (CleanErr.missingColumn "University/Country",
        [("Gender", [some "Male"])]) ∧
    clean [("University/Country", [some "TU/NP"])] =
      Except.error (CleanErr.missingColumn "Address",
        setCol (setCol [("University/Country", [some "TU/NP"])] "University"
          ([[some "TU"], [some "NP"]] : List (List Cell)).headI) "Country"
          ([[some "TU"], [some "NP"]] : List (List Cell)).tail.headI) :=
  ⟨missing_column_abort_amended.1 _ rfl,
   missing_column_abort_amended.2 _ [some "TU/NP"] [[some "TU"], [some "NP"]] rfl rfl rfl⟩

/-- Claim C3: in every table the cleaning pass returns successfully, no
cell of the District column contains any whitespace character, interior
whitespace included. -/
theorem district_no_whitespace (t t' : Table) (h : clean t = Except.ok t')
    (d : List Cell) (hd : getCol t' "District" = some d)
    (c : Cell) (hc : c ∈ d) (s : String) (hs : c = some s) :
    s.data.all (fun ch => !isPyWs ch) = true := by
  unfold clean at h
  obtain ⟨t5, h5, huni⟩ := except_bind_ok_elim h
  obtain ⟨t4, h4, htrunc⟩ := except_bind_ok_elim h5
  obtain ⟨t3, h3, hcountry⟩ := except_bind_ok_elim h4
  obtain ⟨t2, h2, hdistrict⟩ := except_bind_ok_elim h3
  obtain ⟨dcol, hdcol, ht3⟩ := districtStep_ok t2 t3 hdistrict
  obtain ⟨ccol, hccol, ht4⟩ := countryStep_ok t3 t4 hcountry
  obtain ⟨ucol, hucol, ht5⟩ := truncStep_ok t4 t5 htrunc
  obtain ⟨ucol2, hucol2, ht'⟩ := uniMapStep_ok t5 t' huni
  rw [ht', getCol_setCol_ne _ _ _ _ (by decide),
    ht5, getCol_setCol_ne _ _ _ _ (by decide),
    ht4, getCol_setCol_ne _ _ _ _ (by decide),
    ht3, getCol_setCol_self] at hd
  obtain hd2 : (dcol.map (fun c => some (remove_spaces (strOfCell c)))) = d :=
    Option.some.injEq .. ▸ hd
  rw [← hd2] at hc
  obtain ⟨c0, _, hc0⟩ := List.mem_map.mp hc
  rw [← hc0] at hs
  obtain hs2 : remove_spaces (strOfCell c0) = s := Option.some.injEq .. ▸ hs
  rw [← hs2]
  exact remove_spaces_all_not_ws _

/-- Witness for C3: the cleaning pass on the specification example row,
whose Address segments carry leading spaces, yields a District cell
without whitespace. -/
theorem district_no_whitespace_witness :
    ("Cambridge" : String).data.all (fun ch => !isPyWs ch) = true :=
  district_no_whitespace
    [("University/Country", [some "MIT/US"]), ("Address", [some "East, Cambridge, Boston"])]
    [("University", [some "MIT"]), ("Country", [some "United States"]),
     ("Zone", [some "East"]), ("District", [some "Cambridge"]), ("City", [some " Boston"])]
    rfl
    [some "Cambridge"] rfl
    (some "Cambridge") (by decide)
    "Cambridge" rfl

end BiomedD
